import Mathlib

set_option autoImplicit false

/-!
Verification development for the photolyze repository (src/analyze.py).

The program extracts Camera Raw editing metadata from a TIFF file: it opens
the file, finds the TIFF tag named "XMP" on the first page, decodes the tag
payload as UTF-8 (with lossy replacement), parses it as XML, and collects an
allow-listed set of crs: (Camera Raw Settings) values from every
rdf:Description element into one dictionary, with special handling for the
multi-valued crs:ToneCurve element.

The embedding below models:
  - XML element trees as produced by xml.etree.ElementTree (an element has a
    fully expanded tag of the form \x7buri\x7dlocal, an optional text, and an
    ordered list of children);
  - the ElementTree lookup primitives used by the code: find on a direct
    child tag, findtext with default None, and findall with a ".//tag" path
    (all proper descendants in document order);
  - Python dict semantics (insertion order preserved, assignment to an
    existing key keeps its original position);
  - bytes.decode with errors set to replace (total UTF-8 decoding, each
    maximal invalid subpart replaced by U+FFFD);
  - the two library boundaries (tifffile.TiffFile and ET.fromstring) as
    explicit parameters returning Except, embedding "returns or raises".
-/

/-- An ElementTree XML element: expanded tag, text, ordered children.
Attributes are never consulted by analyze.py, so they are not modelled. -/
inductive Element where
  | mk (tag : String) (text : Option String) (children : List Element)

def Element.tag : Element → String
  | .mk t _ _ => t

def Element.text : Element → Option String
  | .mk _ t _ => t

def Element.children : Element → List Element
  | .mk _ _ c => c

mutual

/-- All proper descendants of an element, in document (preorder) order.
This is the node set walked by the ElementTree path ".//" relative to the
element: the element itself is not included. -/
def Element.descendants : Element → List Element
  | .mk _ _ cs => descendantsList cs

def descendantsList : List Element → List Element
  | [] => []
  | c :: rest => c :: (Element.descendants c ++ descendantsList rest)

end

/-- ElementTree find with a plain (namespaced) tag path: first direct child
carrying that expanded tag, used for desc.find in analyze.py line 121. -/
def Element.findChild (e : Element) (t : String) : Option Element :=
  e.children.find? (fun c => c.tag == t)

/-- ElementTree findtext with default None (analyze.py line 116): the text of
the first direct child with the given tag, where a found element whose text
is None yields the empty string, and no match yields the default None. -/
def Element.findtext (e : Element) (t : String) : Option String :=
  match e.findChild t with
  | none => none
  | some c => some (c.text.getD "")

/-- ElementTree findall with a ".//tag" path (analyze.py lines 114 and 123):
every proper descendant with the given expanded tag, in document order. -/
def Element.findallDeep (e : Element) (t : String) : List Element :=
  e.descendants.filter (fun c => c.tag == t)

/-- The two namespace bindings of analyze.py lines 18-21. -/
def ns_rdf : String := "http://www.w3.org/1999/02/22-rdf-syntax-ns#"

def ns_crs : String := "http://ns.adobe.com/camera-raw-settings/1.0/"

/-- ElementTree expands a prefixed tag "p:local" to "\x7buri\x7dlocal". -/
def qname (nsUri localName : String) : String :=
  "\x7b" ++ nsUri ++ "\x7d" ++ localName

/-- A value stored in the editing_params dict of analyze.py: a scalar string
(line 118) or, for ToneCurve only, a list of strings (line 126). -/
inductive XmpValue where
  | s (v : String)
  | seq (vs : List String)
deriving DecidableEq

/-- The editing_params Python dict, as an insertion-ordered association list
with distinct keys. -/
abbrev EditingParams := List (String × XmpValue)

/-- Python dict assignment d[k] = v: overwrite in place if the key is
present (keeping its original insertion position), else append. -/
def dictInsert : EditingParams → String → XmpValue → EditingParams
  | [], k, v => [(k, v)]
  | p :: rest, k, v =>
    if p.1 == k then (k, v) :: rest else p :: dictInsert rest k v

/-- Python dict lookup d.get(k). -/
def dictGet (d : EditingParams) (k : String) : Option XmpValue :=
  (d.find? (fun p => p.1 == k)).map (fun p => p.2)

/-- The keys_to_extract allow-list of analyze.py lines 26-109, verbatim and
in order. -/
def keys_to_extract : List String :=
  [ "Version",
    "ProcessVersion",
    "WhiteBalance",
    "Temperature",
    "Tint",
    "Exposure",
    "Shadows",
    "Brightness",
    "Contrast",
    "Saturation",
    "Sharpness",
    "LuminanceSmoothing",
    "ColorNoiseReduction",
    "ChromaticAberrationR",
    "ChromaticAberrationB",
    "VignetteAmount",
    "ShadowTint",
    "RedHue",
    "RedSaturation",
    "GreenHue",
    "GreenSaturation",
    "BlueHue",
    "BlueSaturation",
    "FillLight",
    "Vibrance",
    "HighlightRecovery",
    "Clarity",
    "Defringe",
    "HueAdjustmentRed",
    "HueAdjustmentOrange",
    "HueAdjustmentYellow",
    "HueAdjustmentGreen",
    "HueAdjustmentAqua",
    "HueAdjustmentBlue",
    "HueAdjustmentPurple",
    "HueAdjustmentMagenta",
    "SaturationAdjustmentRed",
    "SaturationAdjustmentOrange",
    "SaturationAdjustmentYellow",
    "SaturationAdjustmentGreen",
    "SaturationAdjustmentAqua",
    "SaturationAdjustmentBlue",
    "SaturationAdjustmentPurple",
    "SaturationAdjustmentMagenta",
    "LuminanceAdjustmentRed",
    "LuminanceAdjustmentOrange",
    "LuminanceAdjustmentYellow",
    "LuminanceAdjustmentGreen",
    "LuminanceAdjustmentAqua",
    "LuminanceAdjustmentBlue",
    "LuminanceAdjustmentPurple",
    "LuminanceAdjustmentMagenta",
    "SplitToningShadowHue",
    "SplitToningShadowSaturation",
    "SplitToningHighlightHue",
    "SplitToningHighlightSaturation",
    "SplitToningBalance",
    "ParametricShadows",
    "ParametricDarks",
    "ParametricLights",
    "ParametricHighlights",
    "ParametricShadowSplit",
    "ParametricMidtoneSplit",
    "ParametricHighlightSplit",
    "SharpenRadius",
    "SharpenDetail",
    "SharpenEdgeMasking",
    "PostCropVignetteAmount",
    "GrainAmount",
    "LensProfileEnable",
    "LensManualDistortionAmount",
    "PerspectiveVertical",
    "PerspectiveHorizontal",
    "PerspectiveRotate",
    "PerspectiveScale",
    "ConvertToGrayscale",
    "ToneCurveName",
    "CameraProfile",
    "LensProfileSetup",
    "HasSettings",
    "HasCrop",
    "AlreadyApplied" ]

/-- Body of the inner loop of analyze.py lines 115-118 for one key of one
rdf:Description: findtext on crs:key, and store the value unless it is
None. -/
def storeKey (desc : Element) (d : EditingParams) (key : String) : EditingParams :=
  match desc.findtext (qname ns_crs key) with
  | none => d
  | some val => dictInsert d key (XmpValue.s val)

/-- Body of the loop of analyze.py lines 114-126 for one rdf:Description:
for every allow-listed key, findtext on crs:key and store when not None
(lines 115-118); then find the crs:ToneCurve child and, when present,
collect the text of every rdf:li descendant with non-None text and store the
list when non-empty (lines 120-126). -/
def processDescription (params : EditingParams) (desc : Element) : EditingParams :=
  let params := keys_to_extract.foldl (storeKey desc) params
  match desc.findChild (qname ns_crs "ToneCurve") with
  | none => params
  | some tone_curve_elem =>
    let tone_curve_values :=
      (tone_curve_elem.findallDeep (qname ns_rdf "li")).filterMap Element.text
    if tone_curve_values.isEmpty then params
    else dictInsert params "ToneCurve" (XmpValue.seq tone_curve_values)

/-- The extraction loop of analyze.py lines 111-128: fold the per-description
processing over root.findall with path ".//rdf:Description", starting from
the empty dict. -/
def xmpEditingParams (root : Element) : EditingParams :=
  (root.findallDeep (qname ns_rdf "Description")).foldl processDescription []

/-- The tone-curve value list contributed by one rdf:Description, per
analyze.py lines 121-124: the document-order texts of the rdf:li descendants
of the FIRST crs:ToneCurve child (desc.find returns the first match), with
None texts dropped; the empty list when there is no crs:ToneCurve child. -/
def descToneCurve (desc : Element) : List String :=
  match desc.findChild (qname ns_crs "ToneCurve") with
  | none => []
  | some tc => (tc.findallDeep (qname ns_rdf "li")).filterMap Element.text

/-- One step of UTF-8 decoding with the replace error handler, as performed
by bytes.decode("utf-8", errors="replace") in analyze.py line 11: given the
first byte and the remaining bytes, return the decoded character (U+FFFD on
an invalid maximal subpart), the number of extra bytes consumed from the
remainder, and whether the step consumed a valid sequence. -/
def utf8DecodeOne (b : Nat) (rest : List Nat) : Char × Nat × Bool :=
  if b ≤ 0x7F then (Char.ofNat b, 0, true)
  else if 0xC2 ≤ b && b ≤ 0xDF then
    match rest with
    | b2 :: _ =>
      if 0x80 ≤ b2 && b2 ≤ 0xBF then
        (Char.ofNat ((b - 0xC0) * 0x40 + (b2 - 0x80)), 1, true)
      else (Char.ofNat 0xFFFD, 0, false)
    | [] => (Char.ofNat 0xFFFD, 0, false)
  else if 0xE0 ≤ b && b ≤ 0xEF then
    match rest with
    | b2 :: rest2 =>
      if (if b == 0xE0 then 0xA0 ≤ b2 && b2 ≤ 0xBF
          else if b == 0xED then 0x80 ≤ b2 && b2 ≤ 0x9F
          else 0x80 ≤ b2 && b2 ≤ 0xBF) then
        match rest2 with
        | b3 :: _ =>
          if 0x80 ≤ b3 && b3 ≤ 0xBF then
            (Char.ofNat (((b - 0xE0) * 0x40 + (b2 - 0x80)) * 0x40 + (b3 - 0x80)), 2, true)
          else (Char.ofNat 0xFFFD, 1, false)
        | [] => (Char.ofNat 0xFFFD, 1, false)
      else (Char.ofNat 0xFFFD, 0, false)
    | [] => (Char.ofNat 0xFFFD, 0, false)
  else if 0xF0 ≤ b && b ≤ 0xF4 then
    match rest with
    | b2 :: rest2 =>
      if (if b == 0xF0 then 0x90 ≤ b2 && b2 ≤ 0xBF
          else if b == 0xF4 then 0x80 ≤ b2 && b2 ≤ 0x8F
          else 0x80 ≤ b2 && b2 ≤ 0xBF) then
        match rest2 with
        | b3 :: rest3 =>
          if 0x80 ≤ b3 && b3 ≤ 0xBF then
            match rest3 with
            | b4 :: _ =>
              if 0x80 ≤ b4 && b4 ≤ 0xBF then
                (Char.ofNat ((((b - 0xF0) * 0x40 + (b2 - 0x80)) * 0x40
                    + (b3 - 0x80)) * 0x40 + (b4 - 0x80)), 3, true)
              else (Char.ofNat 0xFFFD, 2, false)
            | [] => (Char.ofNat 0xFFFD, 2, false)
          else (Char.ofNat 0xFFFD, 1, false)
        | [] => (Char.ofNat 0xFFFD, 1, false)
      else (Char.ofNat 0xFFFD, 0, false)
    | [] => (Char.ofNat 0xFFFD, 0, false)
  else (Char.ofNat 0xFFFD, 0, false)

/-- Total UTF-8 decoding with replacement: the decoded character stream of
bytes.decode("utf-8", errors="replace"). Never fails. -/
def utf8DecodeReplace : List Nat → List Char
  | [] => []
  | b :: rest =>
    (utf8DecodeOne b rest).1 :: utf8DecodeReplace (rest.drop (utf8DecodeOne b rest).2.1)
termination_by bs => bs.length
decreasing_by
  have h := List.length_drop (utf8DecodeOne b rest).2.1 rest
  simp only [List.length_cons]
  omega

/-- Strict UTF-8 validity of a byte list, phrased over the same stepping
function: true exactly when no decoding step hits an invalid subpart. -/
def validUtf8 : List Nat → Bool
  | [] => true
  | b :: rest =>
    (utf8DecodeOne b rest).2.2 && validUtf8 (rest.drop (utf8DecodeOne b rest).2.1)
termination_by bs => bs.length
decreasing_by
  have h := List.length_drop (utf8DecodeOne b rest).2.1 rest
  simp only [List.length_cons]
  omega

/-- parse_xmp of analyze.py lines 4-128. The library call ET.fromstring is
embedded as the parameter fromstring, which either returns the parsed root
element or raises ET.ParseError carrying a message (Except.error). Returns
the list of printed lines and the resulting dict: on a parse error the
diagnostic of line 14 is printed and the empty dict returned (line 15);
otherwise the extraction loop runs on the root. -/
def parse_xmp (fromstring : String → Except String Element)
    (xmp_bytes : List Nat) : List String × EditingParams :=
  match fromstring (String.mk (utf8DecodeReplace xmp_bytes)) with
  | .error e => (["Error parsing XMP metadata: " ++ e], [])
  | .ok root => ([], xmpEditingParams root)

/-- A TIFF tag as exposed by tifffile: a name and a raw byte value. -/
structure TiffTag where
  name : String
  value : List Nat
deriving DecidableEq

/-- A TIFF page: its ordered tag directory. -/
structure TiffPage where
  tags : List TiffTag
deriving DecidableEq

/-- An opened TIFF file: its ordered page list. -/
structure Tiff where
  pages : List TiffPage
deriving DecidableEq

/-- extract_editing_metadata of analyze.py lines 130-154. The library call
tifffile.TiffFile is embedded as the parameter openResult: Except.error is
an exception raised while opening or reading the container, caught by the
handler of lines 152-154 (which also catches the IndexError raised by
tif.pages[0] on a file with no pages). Otherwise the first page's tags are
scanned in order for the first tag named "XMP" (lines 139-142); if none is
found the line 145 diagnostic is printed and None returned (line 146); else
parse_xmp runs on the tag's byte value and its dict is returned. Returns
printed lines plus the optional result: none models returning None. -/
def extract_editing_metadata (openResult : Except String Tiff)
    (fromstring : String → Except String Element) :
    List String × Option EditingParams :=
  match openResult with
  | .error e => (["Error extracting editing metadata: " ++ e], none)
  | .ok tif =>
    match tif.pages with
    | [] => (["Error extracting editing metadata: list index out of range"], none)
    | page :: _ =>
      match page.tags.find? (fun tag => tag.name == "XMP") with
      | none => (["No XMP metadata found in the file."], none)
      | some tag =>
        let pr := parse_xmp fromstring tag.value
        (pr.1, some pr.2)

/-- Python truthiness of the extract_editing_metadata result, as tested by
the line 160 condition: None and the empty dict are falsy, a non-empty dict
is truthy. -/
def pyTruthy : Option EditingParams → Bool
  | none => false
  | some m => !m.isEmpty

/-- Python repr of a string as interpolated into the line 163 f-string for
list values: quoted with apostrophes, or with double quotes when the string
contains an apostrophe and no double quote. (Escaping of control characters
and of strings containing both quote kinds is elided; no claim depends on
it.) -/
def pyReprString (v : String) : String :=
  if v.data.contains (Char.ofNat 39) && !(v.data.contains (Char.ofNat 34)) then
    String.mk [Char.ofNat 34] ++ v ++ String.mk [Char.ofNat 34]
  else
    String.mk [Char.ofNat 39] ++ v ++ String.mk [Char.ofNat 39]

/-- Python str of a dict value as used by the f-string of line 163: a str
prints as itself, a list prints as its repr. -/
def pyStrValue : XmpValue → String
  | .s v => v
  | .seq vs => "[" ++ String.intercalate ", " (vs.map pyReprString) ++ "]"

/-- The lines printed by the main block of analyze.py lines 156-165, given
the result of extract_editing_metadata (the orchestrator's own prints are
accounted separately in its model). The condition on line 160 is Python
truthiness, so an empty dict takes the else branch. -/
def mainLines (editing_metadata : Option EditingParams) : List String :=
  if pyTruthy editing_metadata then
    "Extracted Editing Metadata:" ::
      (editing_metadata.getD []).map (fun p => p.1 ++ ": " ++ pyStrValue p.2)
  else
    ["No editing metadata could be extracted."]

/-- The round-trip example document of the spec: one rdf:Description holding
crs:Exposure "0.50" and a crs:ToneCurve containing an rdf:Seq of three
rdf:li points. -/
def egDescription : Element :=
  Element.mk (qname ns_rdf "Description") none
    [ Element.mk (qname ns_crs "Exposure") (some "0.50") [],
      Element.mk (qname ns_crs "ToneCurve") none
        [ Element.mk (qname ns_rdf "Seq") none
            [ Element.mk (qname ns_rdf "li") (some "0, 0") [],
              Element.mk (qname ns_rdf "li") (some "32, 22") [],
              Element.mk (qname ns_rdf "li") (some "255, 255") [] ] ] ]

/-- A root wrapping the round-trip example description. -/
def egRoot : Element :=
  Element.mk (qname ns_rdf "RDF") none [egDescription]

/-- An rdf:Description setting crs:Contrast to "10". -/
def egContrastDesc1 : Element :=
  Element.mk (qname ns_rdf "Description") none
    [Element.mk (qname ns_crs "Contrast") (some "10") []]

/-- An rdf:Description setting crs:Contrast to "25". -/
def egContrastDesc2 : Element :=
  Element.mk (qname ns_rdf "Description") none
    [Element.mk (qname ns_crs "Contrast") (some "25") []]

/-- A document with two rdf:Description elements both setting crs:Contrast,
first to "10" and then to "25". -/
def egContrastRoot : Element :=
  Element.mk (qname ns_rdf "RDF") none [egContrastDesc1, egContrastDesc2]

/-- A description carrying TWO crs:ToneCurve children: the first empty, the
second holding an rdf:li with text. desc.find only consults the first. -/
def cexTwoToneCurveDesc : Element :=
  Element.mk (qname ns_rdf "Description") none
    [ Element.mk (qname ns_crs "ToneCurve") none [],
      Element.mk (qname ns_crs "ToneCurve") none
        [Element.mk (qname ns_rdf "li") (some "0, 0") []] ]

/-- A root wrapping cexTwoToneCurveDesc. -/
def cexTwoToneCurveRoot : Element :=
  Element.mk (qname ns_rdf "RDF") none [cexTwoToneCurveDesc]

/-- A description whose crs:Contrast child exists but has no text (text is
None, as for an empty XML element). -/
def cexNullTextRoot : Element :=
  Element.mk (qname ns_rdf "RDF") none
    [ Element.mk (qname ns_rdf "Description") none
        [Element.mk (qname ns_crs "Contrast") none []] ]

/-- A document whose ROOT element is itself an rdf:Description carrying a
crs:Contrast value. -/
def cexRootDescription : Element :=
  Element.mk (qname ns_rdf "Description") none
    [Element.mk (qname ns_crs "Contrast") (some "10") []]

/-- A TIFF whose first page has one tag, not named "XMP". -/
def egTiffNoXmp : Tiff :=
  Tiff.mk [TiffPage.mk [TiffTag.mk "ImageWidth" [0x2A]]]

/-! ## Helper lemmas -/

theorem dictGet_dictInsert_self (d : EditingParams) (k : String) (v : XmpValue) :
    dictGet (dictInsert d k v) k = some v := by
  induction d with
  | nil => simp [dictInsert, dictGet]
  | cons p rest ih =>
    by_cases h : p.1 = k
    · simp [dictInsert, dictGet, h]
    · have hb : (p.1 == k) = false := beq_eq_false_iff_ne.mpr h
      simp [dictInsert, dictGet, hb] at ih ⊢
      exact ih

theorem dictGet_dictInsert_ne (d : EditingParams) (k k' : String) (v : XmpValue)
    (h : k' ≠ k) : dictGet (dictInsert d k v) k' = dictGet d k' := by
  induction d with
  | nil =>
    simp [dictInsert, dictGet]
    exact Ne.symm h
  | cons p rest ih =>
    by_cases hp : p.1 = k
    · have hk' : (k == k') = false := beq_eq_false_iff_ne.mpr (Ne.symm h)
      have hp' : (p.1 == k') = false := by
        subst hp; exact beq_eq_false_iff_ne.mpr (Ne.symm h)
      simp [dictInsert, dictGet, beq_iff_eq.mpr hp, hk', hp']
    · by_cases hpk : p.1 = k'
      · simp [dictInsert, dictGet, beq_eq_false_iff_ne.mpr hp, beq_iff_eq.mpr hpk]
      · simp [dictInsert, dictGet, beq_eq_false_iff_ne.mpr hp,
          beq_eq_false_iff_ne.mpr hpk] at ih ⊢
        exact ih

theorem mem_keys_dictInsert (d : EditingParams) (k k' : String) (v : XmpValue)
    (h : k' ∈ (dictInsert d k v).map Prod.fst) : k' = k ∨ k' ∈ d.map Prod.fst := by
  induction d with
  | nil => simp [dictInsert] at h; simp [h]
  | cons p rest ih =>
    by_cases hp : p.1 = k
    · have hrw : dictInsert (p :: rest) k v = (k, v) :: rest := by
        simp [dictInsert, hp]
      rw [hrw, List.map_cons] at h
      rcases List.mem_cons.mp h with h1 | h1
      · exact Or.inl h1
      · exact Or.inr (by rw [List.map_cons]; exact List.mem_cons_of_mem _ h1)
    · have hrw : dictInsert (p :: rest) k v = p :: dictInsert rest k v := by
        simp [dictInsert, beq_eq_false_iff_ne.mpr hp]
      rw [hrw, List.map_cons] at h
      rcases List.mem_cons.mp h with h1 | h1
      · exact Or.inr (by rw [List.map_cons]; exact h1 ▸ List.mem_cons_self _ _)
      · rcases ih h1 with h2 | h2
        · exact Or.inl h2
        · exact Or.inr (by rw [List.map_cons]; exact List.mem_cons_of_mem _ h2)

theorem dictGet_storeKey_ne (desc : Element) (d : EditingParams) (key k' : String)
    (h : k' ≠ key) : dictGet (storeKey desc d key) k' = dictGet d k' := by
  unfold storeKey
  cases desc.findtext (qname ns_crs key) with
  | none => rfl
  | some val => exact dictGet_dictInsert_ne d key k' (XmpValue.s val) h

theorem dictGet_foldl_storeKey (desc : Element) (ks : List String)
    (params : EditingParams) (key : String) :
    dictGet (ks.foldl (storeKey desc) params) key =
      if key ∈ ks then
        match desc.findtext (qname ns_crs key) with
        | some val => some (XmpValue.s val)
        | none => dictGet params key
      else dictGet params key := by
  induction ks generalizing params with
  | nil => simp
  | cons k ks ih =>
    simp only [List.foldl_cons]
    rw [ih]
    by_cases hk : key ∈ ks
    · simp only [hk, if_true, List.mem_cons, or_true, if_true]
      cases hf : desc.findtext (qname ns_crs key) with
      | some val => rfl
      | none =>
        by_cases hkk : key = k
        · subst hkk
          unfold storeKey
          rw [hf]
        · rw [dictGet_storeKey_ne desc params k key hkk]
    · by_cases hkk : key = k
      · subst hkk
        simp only [hk, if_false, List.mem_cons, true_or, if_true]
        unfold storeKey
        cases hf : desc.findtext (qname ns_crs key) with
        | some val => exact dictGet_dictInsert_self params key (XmpValue.s val)
        | none => rfl
      · have : ¬ key ∈ k :: ks := by
          rw [List.mem_cons]
          rintro (h | h)
          · exact hkk h
          · exact hk h
        simp only [hk, if_false, this]
        exact dictGet_storeKey_ne desc params k key hkk

theorem toneCurve_not_in_keys : "ToneCurve" ∉ keys_to_extract := by decide

theorem dictGet_processDescription (params : EditingParams) (desc : Element)
    (key : String) (hkey : key ∈ keys_to_extract) :
    dictGet (processDescription params desc) key =
      match desc.findtext (qname ns_crs key) with
      | some val => some (XmpValue.s val)
      | none => dictGet params key := by
  have hne : key ≠ "ToneCurve" := by
    rintro rfl; exact toneCurve_not_in_keys hkey
  unfold processDescription
  cases htc : desc.findChild (qname ns_crs "ToneCurve") with
  | none =>
    simp only []
    rw [dictGet_foldl_storeKey, if_pos hkey]
  | some tc =>
    simp only []
    by_cases he : ((tc.findallDeep (qname ns_rdf "li")).filterMap Element.text).isEmpty
    · rw [if_pos he]
      rw [dictGet_foldl_storeKey, if_pos hkey]
    · rw [if_neg he]
      rw [dictGet_dictInsert_ne _ _ _ _ hne]
      rw [dictGet_foldl_storeKey, if_pos hkey]

theorem dictGet_processDescription_toneCurve (params : EditingParams) (desc : Element) :
    dictGet (processDescription params desc) "ToneCurve" =
      if (descToneCurve desc).isEmpty then dictGet params "ToneCurve"
      else some (XmpValue.seq (descToneCurve desc)) := by
  have hfold : dictGet (keys_to_extract.foldl (storeKey desc) params) "ToneCurve" =
      dictGet params "ToneCurve" := by
    rw [dictGet_foldl_storeKey, if_neg toneCurve_not_in_keys]
  unfold processDescription descToneCurve
  cases htc : desc.findChild (qname ns_crs "ToneCurve") with
  | none => simpa using hfold
  | some tc =>
    simp only []
    by_cases he : ((tc.findallDeep (qname ns_rdf "li")).filterMap Element.text).isEmpty
    · rw [if_pos he, if_pos he]
      exact hfold
    · rw [if_neg he, if_neg he]
      exact dictGet_dictInsert_self _ _ _

theorem dictGet_foldl_processDescription_of_absent (descs : List Element)
    (params : EditingParams) (key : String) (hkey : key ∈ keys_to_extract)
    (h : ∀ d ∈ descs, d.findtext (qname ns_crs key) = none) :
    dictGet (descs.foldl processDescription params) key = dictGet params key := by
  induction descs generalizing params with
  | nil => rfl
  | cons d descs ih =>
    simp only [List.foldl_cons]
    rw [ih _ (fun d2 h2 => h d2 (List.mem_cons_of_mem _ h2))]
    rw [dictGet_processDescription _ _ _ hkey, h d (List.mem_cons_self _ _)]

theorem dictGet_foldl_processDescription_last (l1 : List Element) (d : Element)
    (l2 : List Element) (params : EditingParams) (key val : String)
    (hkey : key ∈ keys_to_extract)
    (hd : d.findtext (qname ns_crs key) = some val)
    (hl2 : ∀ d2 ∈ l2, d2.findtext (qname ns_crs key) = none) :
    dictGet ((l1 ++ d :: l2).foldl processDescription params) key =
      some (XmpValue.s val) := by
  rw [List.foldl_append, List.foldl_cons]
  rw [dictGet_foldl_processDescription_of_absent l2 _ key hkey hl2]
  rw [dictGet_processDescription _ _ _ hkey, hd]

theorem dictGet_foldl_processDescription_toneCurve_absent (descs : List Element)
    (params : EditingParams)
    (h : ∀ d ∈ descs, (descToneCurve d).isEmpty = true) :
    dictGet (descs.foldl processDescription params) "ToneCurve" =
      dictGet params "ToneCurve" := by
  induction descs generalizing params with
  | nil => rfl
  | cons d descs ih =>
    simp only [List.foldl_cons]
    rw [ih _ (fun d2 h2 => h d2 (List.mem_cons_of_mem _ h2))]
    rw [dictGet_processDescription_toneCurve, if_pos (h d (List.mem_cons_self _ _))]

theorem dictGet_foldl_processDescription_toneCurve_last (l1 : List Element)
    (d : Element) (l2 : List Element) (params : EditingParams)
    (hd : (descToneCurve d).isEmpty = false)
    (hl2 : ∀ d2 ∈ l2, (descToneCurve d2).isEmpty = true) :
    dictGet ((l1 ++ d :: l2).foldl processDescription params) "ToneCurve" =
      some (XmpValue.seq (descToneCurve d)) := by
  rw [List.foldl_append, List.foldl_cons]
  rw [dictGet_foldl_processDescription_toneCurve_absent l2 _ hl2]
  rw [dictGet_processDescription_toneCurve]
  rw [hd]
  simp

theorem isSome_toneCurve_foldl (descs : List Element) (params : EditingParams) :
    (dictGet (descs.foldl processDescription params) "ToneCurve").isSome = true ↔
      ((∃ d ∈ descs, (descToneCurve d).isEmpty = false) ∨
        (dictGet params "ToneCurve").isSome = true) := by
  induction descs generalizing params with
  | nil => simp
  | cons d descs ih =>
    simp only [List.foldl_cons]
    rw [ih]
    rw [dictGet_processDescription_toneCurve]
    by_cases hd : (descToneCurve d).isEmpty
    · rw [if_pos hd]
      constructor
      · rintro (⟨d2, hd2, he2⟩ | h)
        · exact Or.inl ⟨d2, List.mem_cons_of_mem _ hd2, he2⟩
        · exact Or.inr h
      · rintro (⟨d2, hd2, he2⟩ | h)
        · rcases List.mem_cons.mp hd2 with h1 | h1
          · subst h1; simp [hd] at he2
          · exact Or.inl ⟨d2, h1, he2⟩
        · exact Or.inr h
    · rw [if_neg hd]
      simp only [Option.isSome_some]
      constructor
      · intro _
        exact Or.inl ⟨d, List.mem_cons_self _ _, Bool.eq_false_iff.mpr hd⟩
      · intro _
        tauto

theorem mem_keys_storeKey (desc : Element) (d : EditingParams) (key k' : String)
    (h : k' ∈ (storeKey desc d key).map Prod.fst) :
    k' = key ∨ k' ∈ d.map Prod.fst := by
  unfold storeKey at h
  cases hf : desc.findtext (qname ns_crs key) with
  | none => rw [hf] at h; exact Or.inr h
  | some val => rw [hf] at h; exact mem_keys_dictInsert d key k' _ h

theorem mem_keys_foldl_storeKey (desc : Element) (ks : List String)
    (params : EditingParams) (k' : String)
    (h : k' ∈ (ks.foldl (storeKey desc) params).map Prod.fst) :
    k' ∈ ks ∨ k' ∈ params.map Prod.fst := by
  induction ks generalizing params with
  | nil => exact Or.inr h
  | cons k ks ih =>
    rw [List.foldl_cons] at h
    rcases ih _ h with h1 | h1
    · exact Or.inl (List.mem_cons_of_mem _ h1)
    · rcases mem_keys_storeKey desc params k k' h1 with h2 | h2
      · exact Or.inl (h2 ▸ List.mem_cons_self _ _)
      · exact Or.inr h2

theorem mem_keys_processDescription (params : EditingParams) (desc : Element)
    (k' : String) (h : k' ∈ (processDescription params desc).map Prod.fst) :
    k' ∈ keys_to_extract ∨ k' = "ToneCurve" ∨ k' ∈ params.map Prod.fst := by
  unfold processDescription at h
  cases htc : desc.findChild (qname ns_crs "ToneCurve") with
  | none =>
    rw [htc] at h
    rcases mem_keys_foldl_storeKey desc _ params k' h with h1 | h1
    · exact Or.inl h1
    · exact Or.inr (Or.inr h1)
  | some tc =>
    rw [htc] at h
    simp only [] at h
    by_cases he : ((tc.findallDeep (qname ns_rdf "li")).filterMap Element.text).isEmpty
    · rw [if_pos he] at h
      rcases mem_keys_foldl_storeKey desc _ params k' h with h1 | h1
      · exact Or.inl h1
      · exact Or.inr (Or.inr h1)
    · rw [if_neg he] at h
      rcases mem_keys_dictInsert _ _ _ _ h with h1 | h1
      · exact Or.inr (Or.inl h1)
      · rcases mem_keys_foldl_storeKey desc _ params k' h1 with h2 | h2
        · exact Or.inl h2
        · exact Or.inr (Or.inr h2)

theorem mem_keys_foldl_processDescription (descs : List Element)
    (params : EditingParams) (k' : String)
    (h : k' ∈ (descs.foldl processDescription params).map Prod.fst) :
    k' ∈ keys_to_extract ∨ k' = "ToneCurve" ∨ k' ∈ params.map Prod.fst := by
  induction descs generalizing params with
  | nil => exact Or.inr (Or.inr h)
  | cons d descs ih =>
    rw [List.foldl_cons] at h
    rcases ih _ h with h1 | h1 | h1
    · exact Or.inl h1
    · exact Or.inr (Or.inl h1)
    · exact mem_keys_processDescription params d k' h1

mutual

theorem sizeOf_lt_of_mem_descendants (e : Element) (d : Element)
    (h : d ∈ e.descendants) : sizeOf d < sizeOf e := by
  cases e with
  | mk t x cs =>
    rw [Element.descendants] at h
    have := sizeOf_lt_of_mem_descendantsList cs d h
    simp only [Element.mk.sizeOf_spec]
    omega

theorem sizeOf_lt_of_mem_descendantsList (cs : List Element) (d : Element)
    (h : d ∈ descendantsList cs) : sizeOf d < sizeOf cs := by
  cases cs with
  | nil => rw [descendantsList] at h; cases h
  | cons c rest =>
    rw [descendantsList] at h
    rcases List.mem_cons.mp h with h1 | h1
    · subst h1
      simp only [List.cons.sizeOf_spec]
      omega
    · rcases List.mem_append.mp h1 with h2 | h2
      · have := sizeOf_lt_of_mem_descendants c d h2
        simp only [List.cons.sizeOf_spec]
        omega
      · have := sizeOf_lt_of_mem_descendantsList rest d h2
        simp only [List.cons.sizeOf_spec]
        omega

end

theorem self_not_mem_descendants (e : Element) : e ∉ e.descendants := by
  intro h
  exact absurd (sizeOf_lt_of_mem_descendants e e h) (lt_irrefl _)

theorem utf8DecodeOne_valid_or_repl (b : Nat) (rest : List Nat) :
    (utf8DecodeOne b rest).2.2 = true ∨ (utf8DecodeOne b rest).1 = Char.ofNat 0xFFFD := by
  unfold utf8DecodeOne
  repeat' split
  all_goals first
  | exact Or.inl rfl
  | exact Or.inr rfl

theorem utf8DecodeOne_invalid_repl (b : Nat) (rest : List Nat)
    (h : (utf8DecodeOne b rest).2.2 = false) :
    (utf8DecodeOne b rest).1 = Char.ofNat 0xFFFD := by
  rcases utf8DecodeOne_valid_or_repl b rest with hv | hr
  · rw [h] at hv; cases hv
  · exact hr

theorem replChar_mem_of_invalid (bs : List Nat) (h : validUtf8 bs = false) :
    Char.ofNat 0xFFFD ∈ utf8DecodeReplace bs := by
  have main : ∀ n (bs : List Nat), bs.length ≤ n → validUtf8 bs = false →
      Char.ofNat 0xFFFD ∈ utf8DecodeReplace bs := by
    intro n
    induction n with
    | zero =>
      intro bs hlen hval
      cases bs with
      | nil => rw [validUtf8] at hval; cases hval
      | cons b rest => simp at hlen
    | succ n ih =>
      intro bs hlen hval
      cases bs with
      | nil => rw [validUtf8] at hval; cases hval
      | cons b rest =>
        rw [validUtf8] at hval
        rw [utf8DecodeReplace]
        cases hstep : (utf8DecodeOne b rest).2.2 with
        | false =>
          exact List.mem_cons.mpr (Or.inl (utf8DecodeOne_invalid_repl b rest hstep).symm)
        | true =>
          rw [hstep, Bool.true_and] at hval
          refine List.mem_cons.mpr (Or.inr (ih _ ?_ hval))
          have hdrop := List.length_drop (utf8DecodeOne b rest).2.1 rest
          simp only [List.length_cons] at hlen
          omega
  exact main bs.length bs (le_refl _) h

/-! ## Claim theorems -/

/-- C1: every key of the mapping returned by parse_xmp is an element of the
fixed keys_to_extract allow-list or is the literal string "ToneCurve"; no
other key ever appears in the output mapping. -/
theorem parse_xmp_keys_allowlisted (fromstring : String → Except String Element)
    (xmp_bytes : List Nat) (k : String)
    (hk : k ∈ (parse_xmp fromstring xmp_bytes).2.map Prod.fst) :
    k ∈ keys_to_extract ∨ k = "ToneCurve" := by
  unfold parse_xmp at hk
  cases hp : fromstring (String.mk (utf8DecodeReplace xmp_bytes)) with
  | error e => rw [hp] at hk; simp at hk
  | ok root =>
    rw [hp] at hk
    have hk' : k ∈ (xmpEditingParams root).map Prod.fst := hk
    unfold xmpEditingParams at hk'
    rcases mem_keys_foldl_processDescription _ _ _ hk' with h | h | h
    · exact Or.inl h
    · exact Or.inr h
    · simp at h

theorem parse_xmp_keys_allowlisted_witness :
    "Exposure" ∈ (parse_xmp (fun _ => Except.ok egRoot) []).2.map Prod.fst ∧
      ("Exposure" ∈ keys_to_extract ∨ "Exposure" = "ToneCurve") :=
  ⟨by decide, parse_xmp_keys_allowlisted (fun _ => Except.ok egRoot) [] "Exposure" (by decide)⟩

/-- C2: when fromstring succeeds, an allow-listed key appearing in several
rdf:Description elements gets the value of the last description in document
order that carries a matching crs:key child (values from descriptions after
it carrying no such child do not disturb it). -/
theorem parse_xmp_last_description_wins
    (fromstring : String → Except String Element) (xmp_bytes : List Nat)
    (root : Element) (key val : String) (l1 : List Element) (d : Element)
    (l2 : List Element)
    (hok : fromstring (String.mk (utf8DecodeReplace xmp_bytes)) = Except.ok root)
    (hkey : key ∈ keys_to_extract)
    (hsplit : root.findallDeep (qname ns_rdf "Description") = l1 ++ d :: l2)
    (hd : d.findtext (qname ns_crs key) = some val)
    (hl2 : ∀ d2 ∈ l2, d2.findtext (qname ns_crs key) = none) :
    dictGet (parse_xmp fromstring xmp_bytes).2 key = some (XmpValue.s val) := by
  have hpx : (parse_xmp fromstring xmp_bytes).2 = xmpEditingParams root := by
    unfold parse_xmp
    rw [hok]
  rw [hpx]
  unfold xmpEditingParams
  rw [hsplit]
  exact dictGet_foldl_processDescription_last l1 d l2 [] key val hkey hd hl2

theorem parse_xmp_last_description_wins_witness :
    egContrastRoot.findallDeep (qname ns_rdf "Description") =
        [egContrastDesc1] ++ egContrastDesc2 :: [] ∧
    egContrastDesc2.findtext (qname ns_crs "Contrast") = some "25" ∧
    dictGet (parse_xmp (fun _ => Except.ok egContrastRoot) []).2 "Contrast" =
      some (XmpValue.s "25") :=
  ⟨rfl, rfl,
    parse_xmp_last_description_wins (fun _ => Except.ok egContrastRoot) []
      egContrastRoot "Contrast" "25" [egContrastDesc1] egContrastDesc2 []
      rfl (by decide) rfl rfl (fun d2 h2 => absurd h2 (List.not_mem_nil _))⟩

/-- C4: for every byte payload whose decoded text is not well-formed XML
(the embedded ET.fromstring raises ParseError), parse_xmp catches the
failure, prints the line 14 diagnostic, and returns the empty mapping; the
pair return type carries no exception to the caller. -/
theorem parse_xmp_malformed_returns_empty
    (fromstring : String → Except String Element) (xmp_bytes : List Nat)
    (e : String)
    (herr : fromstring (String.mk (utf8DecodeReplace xmp_bytes)) = Except.error e) :
    parse_xmp fromstring xmp_bytes = (["Error parsing XMP metadata: " ++ e], []) := by
  unfold parse_xmp
  rw [herr]

theorem parse_xmp_malformed_returns_empty_witness :
    ((fun _ : String => (Except.error "no element found" : Except String Element))
        (String.mk (utf8DecodeReplace [])) = Except.error "no element found") ∧
    parse_xmp (fun _ => Except.error "no element found") [] =
      (["Error parsing XMP metadata: no element found"], []) :=
  ⟨rfl, parse_xmp_malformed_returns_empty (fun _ => Except.error "no element found") []
    "no element found" rfl⟩

/-- C5: for a readable TIFF whose first page has no tag named exactly "XMP",
extract_editing_metadata prints the line 145 diagnostic and returns None
(not an empty mapping, not an exception). -/
theorem extract_no_xmp_returns_none (tif : Tiff)
    (fromstring : String → Except String Element) (page : TiffPage)
    (rest : List TiffPage) (hpages : tif.pages = page :: rest)
    (hnoxmp : ∀ tag ∈ page.tags, tag.name ≠ "XMP") :
    extract_editing_metadata (Except.ok tif) fromstring =
      (["No XMP metadata found in the file."], none) := by
  have hfind : page.tags.find? (fun tag => tag.name == "XMP") = none := by
    rw [List.find?_eq_none]
    intro t ht
    simpa using hnoxmp t ht
  simp only [extract_editing_metadata, hpages, hfind]

theorem extract_no_xmp_returns_none_witness :
    (∀ tag ∈ (TiffPage.mk [TiffTag.mk "ImageWidth" [0x2A]]).tags, tag.name ≠ "XMP") ∧
    extract_editing_metadata (Except.ok egTiffNoXmp) (fun _ => Except.error "unused") =
      (["No XMP metadata found in the file."], none) :=
  ⟨by decide,
    extract_no_xmp_returns_none egTiffNoXmp (fun _ => Except.error "unused")
      (TiffPage.mk [TiffTag.mk "ImageWidth" [0x2A]]) [] rfl (by decide)⟩

/-- C9: any exception raised while opening or reading the TIFF container
(including the IndexError for a file with no pages) is caught inside
extract_editing_metadata, the line 153 diagnostic is printed, and None is
returned; the Option return type carries no exception to the caller. -/
theorem extract_exception_caught (e : String)
    (fromstring : String → Except String Element) :
    extract_editing_metadata (Except.error e) fromstring =
      (["Error extracting editing metadata: " ++ e], none) ∧
    extract_editing_metadata (Except.ok (Tiff.mk [])) fromstring =
      (["Error extracting editing metadata: list index out of range"], none) :=
  ⟨rfl, rfl⟩

/-- C3 counterexample: a document in which an rdf:Description HAS a
crs:ToneCurve sub-element under which an rdf:li descendant has non-null
text, yet parse_xmp outputs no "ToneCurve" key, because desc.find only
consults the FIRST crs:ToneCurve child (here empty). -/
theorem parse_xmp_toneCurve_counterexample :
    (∃ d ∈ cexTwoToneCurveRoot.findallDeep (qname ns_rdf "Description"),
       ∃ tc ∈ d.children, tc.tag = qname ns_crs "ToneCurve" ∧
         ∃ li ∈ tc.descendants, li.tag = qname ns_rdf "li" ∧ li.text ≠ none) ∧
    dictGet (parse_xmp (fun _ => Except.ok cexTwoToneCurveRoot) []).2 "ToneCurve" =
      none := by
  constructor
  · refine ⟨cexTwoToneCurveDesc, List.mem_singleton_self _, ?_⟩
    refine ⟨Element.mk (qname ns_crs "ToneCurve") none
        [Element.mk (qname ns_rdf "li") (some "0, 0") []],
      List.mem_cons_of_mem _ (List.mem_singleton_self _), rfl, ?_⟩
    exact ⟨Element.mk (qname ns_rdf "li") (some "0, 0") [],
      List.mem_singleton_self _, rfl, by simp [Element.text]⟩
  · decide

/-- C3 amended: when fromstring succeeds, the key "ToneCurve" is present in
the parse_xmp output exactly when some rdf:Description contributes a
non-empty tone-curve list, where a description's contribution is read from
its FIRST crs:ToneCurve child only (descToneCurve); when present, the value
is the contribution of the last description whose contribution is
non-empty: descriptions after it with empty contributions neither store nor
clear it. -/
theorem parse_xmp_toneCurve_spec
    (fromstring : String → Except String Element) (xmp_bytes : List Nat)
    (root : Element)
    (hok : fromstring (String.mk (utf8DecodeReplace xmp_bytes)) = Except.ok root) :
    ((dictGet (parse_xmp fromstring xmp_bytes).2 "ToneCurve").isSome = true ↔
       ∃ d ∈ root.findallDeep (qname ns_rdf "Description"),
         (descToneCurve d).isEmpty = false) ∧
    (∀ l1 d l2, root.findallDeep (qname ns_rdf "Description") = l1 ++ d :: l2 →
       (descToneCurve d).isEmpty = false →
       (∀ d2 ∈ l2, (descToneCurve d2).isEmpty = true) →
       dictGet (parse_xmp fromstring xmp_bytes).2 "ToneCurve" =
         some (XmpValue.seq (descToneCurve d))) := by
  have hpx : (parse_xmp fromstring xmp_bytes).2 = xmpEditingParams root := by
    unfold parse_xmp
    rw [hok]
  constructor
  · rw [hpx]
    unfold xmpEditingParams
    rw [isSome_toneCurve_foldl]
    simp [dictGet]
  · intro l1 d l2 hsplit hd hl2
    rw [hpx]
    unfold xmpEditingParams
    rw [hsplit]
    exact dictGet_foldl_processDescription_toneCurve_last l1 d l2 [] hd hl2

theorem parse_xmp_toneCurve_spec_witness :
    dictGet (parse_xmp (fun _ => Except.ok egRoot) []).2 "ToneCurve" =
      some (XmpValue.seq ["0, 0", "32, 22", "255, 255"]) := by
  have h := (parse_xmp_toneCurve_spec (fun _ => Except.ok egRoot) [] egRoot rfl).2
    [] egDescription [] rfl (by decide)
    (fun d2 h2 => absurd h2 (List.not_mem_nil _))
  rw [h]
  decide

/-- C6 counterexample: a present-but-empty mapping (as arises for an XMP
payload that fails to parse) makes the main block print the absence
message, so that message is NOT printed exactly when the result is absent. -/
theorem mainLines_empty_dict_counterexample :
    (some ([] : EditingParams) ≠ none) ∧
    mainLines (some []) = ["No editing metadata could be extracted."] :=
  ⟨by simp, rfl⟩

/-- C6 amended: the main block prints "Extracted Editing Metadata:" followed
by one "Key: Value" line per key in insertion order when the result is a
present NON-EMPTY mapping, and prints "No editing metadata could be
extracted." when the result is absent OR a present empty mapping (the
line 160 truthiness test does not distinguish those two). -/
theorem mainLines_spec (r : Option EditingParams) :
    (∀ m, r = some m → m ≠ [] →
        mainLines r = "Extracted Editing Metadata:" ::
          m.map (fun p => p.1 ++ ": " ++ pyStrValue p.2)) ∧
    ((r = none ∨ r = some []) →
        mainLines r = ["No editing metadata could be extracted."]) := by
  constructor
  · rintro m rfl hm
    have hne : m.isEmpty = false := by
      cases m with
      | nil => exact absurd rfl hm
      | cons p rest => rfl
    simp [mainLines, pyTruthy, hne]
  · rintro (rfl | rfl) <;> rfl

theorem mainLines_spec_witness :
    mainLines (some [("Exposure", XmpValue.s "0.50")]) =
      ["Extracted Editing Metadata:", "Exposure: 0.50"] := by
  rw [(mainLines_spec (some [("Exposure", XmpValue.s "0.50")])).1
    [("Exposure", XmpValue.s "0.50")] rfl (by simp)]
  decide

/-- C7 counterexample: a present crs:Contrast element whose text is None
DOES cause a write: ElementTree findtext coerces the missing text to the
empty string, so parse_xmp stores Contrast -> "". -/
theorem parse_xmp_null_text_counterexample :
    (Element.mk (qname ns_crs "Contrast") (none : Option String) []).text = none ∧
    dictGet (parse_xmp (fun _ => Except.ok cexNullTextRoot) []).2 "Contrast" =
      some (XmpValue.s "") :=
  ⟨rfl, by decide⟩

/-- C7 amended: within one rdf:Description, for an allow-listed key the
lookup consults the first matching crs:key child; whenever such a child
exists its text is written under the key, with a None text coerced to the
empty string by findtext; only when no such child exists is nothing written
for that key. -/
theorem processDescription_first_match_write (params : EditingParams)
    (desc : Element) (key : String) (hkey : key ∈ keys_to_extract) :
    dictGet (processDescription params desc) key =
      match desc.children.find? (fun c => c.tag == qname ns_crs key) with
      | some c => some (XmpValue.s (c.text.getD ""))
      | none => dictGet params key := by
  rw [dictGet_processDescription params desc key hkey]
  unfold Element.findtext Element.findChild
  cases desc.children.find? (fun c => c.tag == qname ns_crs key) <;> rfl

theorem processDescription_first_match_write_witness :
    dictGet (processDescription []
        (Element.mk (qname ns_rdf "Description") none
          [Element.mk (qname ns_crs "Contrast") none []])) "Contrast" =
      some (XmpValue.s "") := by
  rw [processDescription_first_match_write []
    (Element.mk (qname ns_rdf "Description") none
      [Element.mk (qname ns_crs "Contrast") none []]) "Contrast" (by decide)]
  decide

/-- C8 counterexample: a document whose root element is itself an
rdf:Description (carrying crs:Contrast "10") yields an EMPTY mapping from
parse_xmp, because root.findall(".//rdf:Description") walks only proper
descendants; the same element one level deeper is processed. -/
theorem parse_xmp_root_description_counterexample :
    cexRootDescription.tag = qname ns_rdf "Description" ∧
    parse_xmp (fun _ => Except.ok cexRootDescription) [] = ([], []) ∧
    xmpEditingParams (Element.mk "wrapper" none [cexRootDescription]) =
      [("Contrast", XmpValue.s "10")] :=
  ⟨rfl, by decide, by decide⟩

/-- C8 amended: the description scan of parse_xmp covers exactly the proper
descendants of the parsed root whose qualified name is rdf:Description, at
any depth; the root element itself is never scanned, even when its own
qualified name is rdf:Description. -/
theorem findall_descriptions_characterization (root : Element) :
    (xmpEditingParams root =
        (root.findallDeep (qname ns_rdf "Description")).foldl processDescription []) ∧
    (∀ d, d ∈ root.findallDeep (qname ns_rdf "Description") ↔
        d ∈ root.descendants ∧ d.tag = qname ns_rdf "Description") ∧
    root ∉ root.findallDeep (qname ns_rdf "Description") := by
  refine ⟨rfl, ?_, ?_⟩
  · intro d
    unfold Element.findallDeep
    rw [List.mem_filter]
    simp
  · intro h
    unfold Element.findallDeep at h
    exact self_not_mem_descendants root (List.mem_filter.mp h).1

/-- C10: decoding never fails: any byte payload that is not valid UTF-8 is
decoded with the replacement character U+FFFD substituted for its invalid
sequences, and parse_xmp still returns a printed-lines/mapping pair for it
(the total return type admits no decoding exception). -/
theorem parse_xmp_decode_replace (xmp_bytes : List Nat)
    (hinvalid : validUtf8 xmp_bytes = false) :
    Char.ofNat 0xFFFD ∈ utf8DecodeReplace xmp_bytes ∧
      ∀ fromstring : String → Except String Element,
        ∃ printed params, parse_xmp fromstring xmp_bytes = (printed, params) :=
  ⟨replChar_mem_of_invalid xmp_bytes hinvalid, fun _ => ⟨_, _, rfl⟩⟩

theorem parse_xmp_decode_replace_witness :
    validUtf8 [0xFF] = false ∧
      (Char.ofNat 0xFFFD ∈ utf8DecodeReplace [0xFF] ∧
        ∀ fromstring : String → Except String Element,
          ∃ printed params, parse_xmp fromstring [0xFF] = (printed, params)) :=
  ⟨by simp [validUtf8, utf8DecodeOne],
    parse_xmp_decode_replace [0xFF] (by simp [validUtf8, utf8DecodeOne])⟩

theorem findall_descriptions_characterization_witness :
    cexRootDescription ∉ cexRootDescription.findallDeep (qname ns_rdf "Description") :=
  (findall_descriptions_characterization cexRootDescription).2.2
